import Mathlib

/-!
Verification of the transaction ingestion and normalization pipeline of the
Finance_tracker repository (src/tracker.py, class FinanceTracker).

The Python code is shallowly embedded: each method becomes a Lean function
over an explicit model of the values it manipulates.  Monetary amounts are
modelled by `Dec`, a decimal number given as an integer mantissa and a
power-of-ten exponent; this is exactly the shape of every value produced by
the numeric parser, and `Dec.val` interprets it as a rational.  Python
`None`/`NaN` cells are `Option`/a dedicated constructor, and the `try/except`
in `clean_numeric_value` is an explicit `Except` layer.
-/

/-- A decimal number `num * 10 ^ (-exp)`.  Models the Python floats flowing
through the pipeline (every value the parser can produce is of this form). -/
structure Dec where
  num : ℤ
  exp : ℕ
deriving DecidableEq

/-- The rational value of a `Dec`. -/
def Dec.val (d : Dec) : ℚ := (d.num : ℚ) / 10 ^ d.exp

/-- A raw Python cell value as seen by `clean_numeric_value`:
`nanV` models `None`/`NaN` (anything `pd.isna` accepts), `intV`/`floatV`
numeric cells, `strV` strings, `otherV` any other Python object. -/
inductive PyValue where
  | nanV : PyValue
  | intV : ℤ → PyValue
  | floatV : Dec → PyValue
  | strV : String → PyValue
  | otherV : PyValue
deriving DecidableEq

/-- Digit characters of a natural number, most significant first
(fuel-based so that it reduces in the kernel; fuel `n` suffices). -/
def natDigitsAux : ℕ → ℕ → List Char
  | 0, _ => []
  | f + 1, n => if n = 0 then [] else natDigitsAux f (n / 10) ++ [Char.ofNat (48 + n % 10)]

/-- Decimal digit characters of a natural number (`0` gives `"0"`). -/
def natDigits (n : ℕ) : List Char := if n = 0 then ['0'] else natDigitsAux n n

/-- Characters of Python `str(int)`. -/
def intChars (n : ℤ) : List Char :=
  (if n < 0 then ['-'] else []) ++ natDigits n.natAbs

/-- Characters of Python `str(float)` on a decimal-valued float:
digits with the point inserted `exp` places from the right, a `0` fractional
part when the value is integral (`str(-45000.0) = "-45000.0"`). -/
def floatChars (d : Dec) : List Char :=
  let ds := natDigits d.num.natAbs
  let ds := List.replicate (d.exp + 1 - ds.length) '0' ++ ds
  let ip := ds.take (ds.length - d.exp)
  let fp := ds.drop (ds.length - d.exp)
  (if d.num < 0 then ['-'] else []) ++ ip ++ '.' :: (if d.exp = 0 then ['0'] else fp)

/-- Python `str()` of a cell value, as used by `df['VALOR'].astype(str)`
in `load_transactions` (line 145): `NaN` prints as `"nan"`, strings are
unchanged. -/
def pyStr : PyValue → String
  | .nanV => "nan"
  | .intV n => ⟨intChars n⟩
  | .floatV d => ⟨floatChars d⟩
  | .strV s => s
  | .otherV => "<object>"

/-- Whitespace for Python `str.strip()` (the common ASCII whitespace). -/
def isWs (c : Char) : Bool := c = ' ' || c = '\t' || c = '\n' || c = '\r'

/-- Python `str.strip()` on a character list: drop whitespace at both ends. -/
def pyStripChars (l : List Char) : List Char :=
  ((l.dropWhile isWs).reverse.dropWhile isWs).reverse

/-- Python `str.replace('$', '')`: every dollar sign is removed. -/
def removeDollars (l : List Char) : List Char := l.filter (· != '$')

/-- ASCII lowering of one character (Python `str.lower()` restricted to the
ASCII range, which is all the pipeline's comparisons need). -/
def lowerChar (c : Char) : Char :=
  if 'A' ≤ c ∧ c ≤ 'Z' then Char.ofNat (c.toNat + 32) else c

/-- The separator disambiguation of `clean_numeric_value` (lines 95-100):
`.` without `,` drops every `.`; both present drops `.` and turns `,` into
`.`; `,` alone turns into `.`; otherwise the string is untouched. -/
def sepClean (c : List Char) : List Char :=
  if c.contains '.' && !c.contains ',' then c.filter (· != '.')
  else if c.contains '.' && c.contains ',' then
    (c.filter (· != '.')).map (fun ch => if ch = ',' then '.' else ch)
  else if c.contains ',' then c.map (fun ch => if ch = ',' then '.' else ch)
  else c

/-- The fully cleaned character list of a string input:
`value.replace('$', '').strip()` followed by separator disambiguation. -/
def cleanedChars (s : String) : List Char :=
  sepClean (pyStripChars (removeDollars s.data))

/-- Numeric value of a digit-character list, most significant first. -/
def digitsVal (l : List Char) : ℕ :=
  l.foldl (fun a c => 10 * a + (c.toNat - 48)) 0

/-- Split a character list at the first `'.'`:
returns the prefix and, when a dot was found, the remainder after it. -/
def splitIntFrac : List Char → List Char × Option (List Char)
  | [] => ([], none)
  | c :: rest =>
    if c = '.' then ([], some rest)
    else
      let p := splitIntFrac rest
      (c :: p.1, p.2)

/-- Python `float()` on an unsigned body: digits with at most one point and
at least one digit somewhere; the result is the exact decimal read. -/
def pyFloatCore (cs : List Char) : Option Dec :=
  match splitIntFrac cs with
  | (a, none) =>
    if a ≠ [] ∧ a.all Char.isDigit then some ⟨(digitsVal a : ℤ), 0⟩ else none
  | (a, some b) =>
    if (a ≠ [] ∨ b ≠ []) ∧ a.all Char.isDigit ∧ b.all Char.isDigit then
      some ⟨(digitsVal (a ++ b) : ℤ), b.length⟩
    else none

/-- Python `float()` on the sign-digits-point fragment it receives from this
pipeline: an optional sign then `pyFloatCore`.  (Python's `float` also
accepts exponents, underscores and infinities; those spellings never arise
from the cleaning step on the inputs this spec covers and are not modelled.) -/
def pyFloat? : List Char → Option Dec
  | [] => pyFloatCore []
  | c :: rest =>
    if c = '-' then (pyFloatCore rest).map (fun d => ⟨-d.num, d.exp⟩)
    else if c = '+' then pyFloatCore rest
    else pyFloatCore (c :: rest)

/-- Whether the cleaned characters spell Python `float('nan')` (an optionally
signed, case-insensitive `nan`): `float` then succeeds with a non-finite
value, which `pd.notnull` treats as null downstream, so the pipeline model
folds it into the null amount. -/
def isNanChars (l : List Char) : Bool :=
  let core := match l with
    | [] => []
    | c :: r => if c = '-' ∨ c = '+' then r else c :: r
  (core.map lowerChar) == ['n', 'a', 'n']

/-- The body of `clean_numeric_value` (lines 83-102) with its possible
exception made explicit: `pd.isna` → `None`; numeric → the same value;
string → clean then `float()`, whose parse failure is the raised exception;
any other type falls through to `None`. -/
def clean_numeric_value_body : PyValue → Except String (Option Dec)
  | .nanV => .ok none
  | .intV n => .ok (some ⟨n, 0⟩)
  | .floatV d => .ok (some d)
  | .strV s =>
    let c := cleanedChars s
    if isNanChars c then .ok none
    else
      match pyFloat? c with
      | some d => .ok (some d)
      | none => .error "could not convert string to float"
  | .otherV => .ok none

/-- `clean_numeric_value` (lines 79-106): the body wrapped in the
`try/except` that logs and returns `None` on any exception. -/
def clean_numeric_value (v : PyValue) : Option Dec :=
  match clean_numeric_value_body v with
  | .ok o => o
  | .error _ => none

/-- The DEBIT/CREDIT classifier of `load_transactions` (lines 152-154):
`lambda x: 'DEBIT' if pd.notnull(x) and x < 0 else 'CREDIT'`.  A null amount
is `none`; a float is negative exactly when its mantissa is (`Dec.val_neg_iff`
below). -/
def flowOf : Option Dec → String
  | some d => if d.num < 0 then "DEBIT" else "CREDIT"
  | none => "CREDIT"

/-- Python `keyword.lower().strip()` / `.str.lower().str.strip()`:
lowercase, then strip surrounding whitespace. -/
def cleanStr (s : String) : String := ⟨pyStripChars (s.data.map lowerChar)⟩

/-- One iteration of the category loop of `categorize_transactions`
(lines 113-122) as it acts on a single row: a category named
`"Uncategorized"` or with an empty keyword list is skipped; otherwise the
row's cleaned description is tested for membership in the cleaned keyword
set and, on a match, the category overwrites the current assignment.
A missing description (`NaN`) is never a member (`.str.lower()` keeps it
`NaN` and `isin` is false on `NaN`). -/
def categoryStep (desc : Option String) (acc : String) (p : String × List String) : String :=
  if p.1 = "Uncategorized" ∨ p.2 = [] then acc
  else if (match desc with
           | some d => (p.2.map cleanStr).contains (cleanStr d)
           | none => false) then p.1
  else acc

/-- The category assigned to one description by `categorize_transactions`:
start from `"Uncategorized"` (line 111) and run every category of the table
in iteration order. -/
def categorize_one (cats : List (String × List String)) (desc : Option String) : String :=
  cats.foldl (categoryStep desc) "Uncategorized"

/-- A row of the processed DataFrame: the `VALOR` column after
`astype(str)`, the parsed `VALOR_NUMERICO`, the `DEBIT/CREDIT` column, the
description (none models a `NaN` cell) and the `Category` column. -/
structure Txn where
  valorStr : String
  amount : Option Dec
  flow : String
  descripcion : Option String
  category : String
deriving DecidableEq

/-- `categorize_transactions` (lines 108-124) on the whole table: every
row's `Category` is (re)assigned from its description. -/
def categorize_transactions (cats : List (String × List String)) (rows : List Txn) : List Txn :=
  rows.map (fun r => { r with category := categorize_one cats r.descripcion })

/-- An input row: the raw `VALOR` cell and the `DESCRIPCIÓN` cell
(none models a missing/`NaN` description). -/
structure RawRow where
  valor : PyValue
  descripcion : Option String
deriving DecidableEq

/-- The per-row composition of the column-wise steps of `load_transactions`
(lines 145-161): `VALOR` is cast to string, parsed, classified, and the row
is categorized.  The column operations are row-independent, so the fused
per-row form is equivalent to the column-at-a-time order of the source. -/
def normalize_row (cats : List (String × List String)) (r : RawRow) : Txn :=
  let s := pyStr r.valor
  let amt := clean_numeric_value (.strV s)
  { valorStr := s, amount := amt, flow := flowOf amt,
    descripcion := r.descripcion, category := categorize_one cats r.descripcion }

/-- The required columns of `validate_dataframe` (line 69), in check order. -/
def required_columns : List String := ["VALOR", "DESCRIPCIÓN"]

/-- The column loop of `validate_dataframe` (lines 71-75): the first
missing required column produces one error message and an early `False`. -/
def validateLoop (cols : List String) : List String → Bool × List String
  | [] => (true, [])
  | c :: rest =>
    if cols.contains c then validateLoop cols rest
    else (false, ["Missing required column: " ++ c])

/-- `validate_dataframe` (lines 67-77): `True` with no diagnostics when both
required columns are present, otherwise `False` with the error emitted for
the first missing column. -/
def validate_dataframe (cols : List String) : Bool × List String :=
  validateLoop cols required_columns

/-- `process_transactions` (lines 215-236): filter the DEBIT rows and the
CREDIT rows (pandas boolean-mask selection keeps the original order), then
check `len(debits) + len(credits) == len(df)`; the boolean is the
warning emitted when the counts mismatch.  The split result is returned in
either case. -/
def process_transactions (rows : List Txn) : List Txn × List Txn × Bool :=
  let debits := rows.filter (fun r => r.flow = "DEBIT")
  let credits := rows.filter (fun r => r.flow = "CREDIT")
  (debits, credits, decide (rows.length ≠ debits.length + credits.length))

/-- The value returned by `load_transactions` together with the state it
stores: `success`/`message`/`data` mirror the returned dict (with `data`
the `(total, debits, credits)` counts), `df`/`debitsDf`/`creditsDf` mirror
the stored `self.df`/`self.debits_df`/`self.credits_df`, and `errors` is
the stream of `logger.error`/`st.error` diagnostics emitted on the way.
The display-only currency formatting of the stored frames (lines 173-194)
is presentation and is not modelled; `df`, `debitsDf` and `creditsDf` hold
the numeric content that the counts are taken from. -/
structure LoadOutcome where
  success : Bool
  message : String
  data : Option (ℕ × ℕ × ℕ)
  df : Option (List Txn)
  debitsDf : Option (List Txn)
  creditsDf : Option (List Txn)
  errors : List String
deriving DecidableEq

/-- Decimal string of a natural number (for the success message). -/
def natStr (n : ℕ) : String := ⟨natDigits n⟩

/-- `load_transactions` (lines 126-212) after the spreadsheet has been read
into a table given as its column names and rows: schema validation with an
early structured failure, `astype(str)` on `VALOR`, parsing, DEBIT/CREDIT
classification, categorization, the debit/credit split, and the success
dict carrying the three counts.  A value whose parse raises inside
`clean_numeric_value` contributes one logged error message. -/
def load_transactions (cats : List (String × List String)) (cols : List String)
    (rows : List RawRow) : LoadOutcome :=
  let v := validate_dataframe cols
  if v.1 = false then
    { success := false, message := "Invalid file structure. Missing required columns.",
      data := none, df := none, debitsDf := none, creditsDf := none, errors := v.2 }
  else
    let txns := rows.map (normalize_row cats)
    let parseErrors := rows.filterMap (fun r =>
      match clean_numeric_value_body (.strV (pyStr r.valor)) with
      | .error _ => some ("Error processing value: '" ++ pyStr r.valor ++ "'")
      | .ok _ => none)
    let pt := process_transactions txns
    { success := true,
      message := "Successfully loaded " ++ natStr txns.length ++ " transactions",
      data := some (txns.length, pt.1.length, pt.2.1.length),
      df := some txns, debitsDf := some pt.1, creditsDf := some pt.2.1,
      errors := parseErrors ++
        (if pt.2.2 then ["Possible data loss: Total=" ++ natStr txns.length ++
          ", Split=" ++ natStr (pt.1.length + pt.2.1.length)] else []) }

/-- Substring occurrence test used to state what a diagnostic names. -/
def takeEq : List Char → List Char → Bool
  | [], _ => true
  | _ :: _, [] => false
  | a :: as, b :: bs => a = b && takeEq as bs

/-- Whether `needle` occurs as a contiguous substring of the second list. -/
def subIn (needle : List Char) : List Char → Bool
  | [] => takeEq needle []
  | c :: rest => takeEq needle (c :: rest) || subIn needle rest

/-- Digit groups joined by `'.'` (the shape of a thousands-separated
numeral), used to state the separator conventions. -/
def joinDots : List (List Char) → List Char
  | [] => []
  | [g] => g
  | g :: gs => g ++ '.' :: joinDots gs

/-- A float is negative exactly when its mantissa is. -/
theorem Dec.val_neg_iff (d : Dec) : d.val < 0 ↔ d.num < 0 := by
  unfold Dec.val
  have h10 : (0 : ℚ) < 10 ^ d.exp := by positivity
  constructor
  · intro h
    by_contra hn
    push_neg at hn
    have hq : (0 : ℚ) ≤ (d.num : ℚ) := by exact_mod_cast hn
    exact absurd (div_nonneg hq h10.le) (not_le.mpr h)
  · intro h
    have hq : (d.num : ℚ) < 0 := by exact_mod_cast h
    exact div_neg_of_neg_of_pos hq h10

/-- C2: the flow classification is DEBIT exactly on non-null strictly
negative amounts; zero and null amounts are CREDIT; the pipeline applies it
to each row's parsed amount. -/
theorem flow_classification_iff_negative :
    ∀ a : Option Dec,
      ((flowOf a = "DEBIT") ↔ ∃ d, a = some d ∧ d.val < 0) ∧
      (¬ (∃ d, a = some d ∧ d.val < 0) → flowOf a = "CREDIT") ∧
      (∀ e : ℕ, flowOf (some ⟨0, e⟩) = "CREDIT") ∧ flowOf none = "CREDIT" ∧
      (∀ cats r, (normalize_row cats r).flow = flowOf (normalize_row cats r).amount) := by
  intro a
  have hmain : (flowOf a = "DEBIT") ↔ ∃ d, a = some d ∧ d.val < 0 := by
    cases a with
    | none => simp [flowOf]
    | some d =>
      by_cases h : d.num < 0
      · have hf : flowOf (some d) = "DEBIT" := by simp [flowOf, h]
        rw [hf]
        exact iff_of_true rfl ⟨d, rfl, (Dec.val_neg_iff d).mpr h⟩
      · have hf : flowOf (some d) = "CREDIT" := by simp [flowOf, h]
        rw [hf]
        constructor
        · intro hc
          exact absurd hc (by decide)
        · rintro ⟨d', hd', hv⟩
          cases Option.some.inj hd'
          exact absurd ((Dec.val_neg_iff d).mp hv) h
  refine ⟨hmain, ?_, fun e => by simp [flowOf], rfl, fun cats r => rfl⟩
  intro hne
  cases a with
  | none => rfl
  | some d =>
    have h : ¬ d.num < 0 := fun hn => hne ⟨d, rfl, (Dec.val_neg_iff d).mpr hn⟩
    simp [flowOf, h]

/-- C2 witness: a concrete negative amount is DEBIT. -/
theorem flow_classification_witness : flowOf (some ⟨-45000, 0⟩) = "DEBIT" :=
  (flow_classification_iff_negative (some ⟨-45000, 0⟩)).1.mpr
    ⟨⟨-45000, 0⟩, rfl, by norm_num [Dec.val]⟩

/-- C9: `clean_numeric_value` is total: on every input it returns a float
or `None`; when its body raises (string whose cleaned form `float()`
rejects), the handler turns the exception into `None` instead of
propagating it. -/
theorem clean_numeric_value_total :
    ∀ v : PyValue, ∃ o : Option Dec, clean_numeric_value v = o ∧
      (clean_numeric_value_body v = .ok o ∨
        (clean_numeric_value_body v = .error "could not convert string to float" ∧ o = none)) := by
  intro v
  cases hb : clean_numeric_value_body v with
  | ok o => exact ⟨o, by simp [clean_numeric_value, hb], Or.inl rfl⟩
  | error e =>
    have he : e = "could not convert string to float" := by
      cases v with
      | strV s =>
        rw [clean_numeric_value_body] at hb
        by_cases hn : isNanChars (cleanedChars s) = true
        · simp [hn] at hb
        · simp only [Bool.not_eq_true] at hn
          simp only [hn, Bool.false_eq_true, if_false] at hb
          cases hp : pyFloat? (cleanedChars s) with
          | some d => simp [hp] at hb
          | none =>
            simp only [hp] at hb
            exact (Except.error.inj hb).symm
      | nanV => simp [clean_numeric_value_body] at hb
      | intV n => simp [clean_numeric_value_body] at hb
      | floatV d => simp [clean_numeric_value_body] at hb
      | otherV => simp [clean_numeric_value_body] at hb
    exact ⟨none, by simp [clean_numeric_value, hb], Or.inr ⟨by rw [he], rfl⟩⟩

/-- C3: `process_transactions` returns the DEBIT rows and the CREDIT rows,
each a subsequence of the input (original order); the returned boolean is
the warning, emitted exactly when the checked postcondition
`len(debits) + len(credits) == len(input)` fails, and the split is returned
in either case; when every row is DEBIT or CREDIT the counts add up. -/
theorem process_transactions_split_spec :
    ∀ rows : List Txn,
      ((process_transactions rows).1).Sublist rows ∧
      ((process_transactions rows).2.1).Sublist rows ∧
      (∀ r, r ∈ (process_transactions rows).1 ↔ r ∈ rows ∧ r.flow = "DEBIT") ∧
      (∀ r, r ∈ (process_transactions rows).2.1 ↔ r ∈ rows ∧ r.flow = "CREDIT") ∧
      ((process_transactions rows).2.2 = true ↔
        (process_transactions rows).1.length + (process_transactions rows).2.1.length
          ≠ rows.length) ∧
      ((∀ r ∈ rows, r.flow = "DEBIT" ∨ r.flow = "CREDIT") →
        (process_transactions rows).1.length + (process_transactions rows).2.1.length
          = rows.length) := by
  intro rows
  refine ⟨List.filter_sublist _, List.filter_sublist _, ?_, ?_, ?_, ?_⟩
  · intro r
    simp [process_transactions, List.mem_filter]
  · intro r
    simp [process_transactions, List.mem_filter]
  · simp only [process_transactions, decide_eq_true_eq]
    exact ⟨fun h => fun he => h he.symm, fun h => fun he => h he.symm⟩
  · intro h
    simp only [process_transactions]
    induction rows with
    | nil => simp
    | cons r t ih =>
      have ht : ∀ x ∈ t, x.flow = "DEBIT" ∨ x.flow = "CREDIT" :=
        fun x hx => h x (List.mem_cons_of_mem _ hx)
      rcases h r (List.mem_cons_self _ _) with hf | hf <;>
        simp [List.filter_cons, hf, ← ih ht] <;> omega

/-- C3 witness: a row with an unexpected flow label trips the checked
postcondition and the warning fires while the split is still produced. -/
theorem process_transactions_split_witness :
    (process_transactions [⟨"x", none, "BOGUS", none, "u"⟩]).2.2 = true := by
  have h := (process_transactions_split_spec [⟨"x", none, "BOGUS", none, "u"⟩]).2.2.2.2.1
  exact h.mpr (by decide)

/-- A category step never changes the assignment when the row has no
description: a `NaN` description is never a member of any keyword set. -/
theorem categoryStep_none (acc : String) (p : String × List String) :
    categoryStep none acc p = acc := by
  unfold categoryStep
  split
  · rfl
  · rfl

/-- The whole category loop keeps its starting assignment on a row with no
description. -/
theorem foldl_categoryStep_none (cats : List (String × List String)) (a : String) :
    cats.foldl (categoryStep none) a = a := by
  induction cats generalizing a with
  | nil => rfl
  | cons p t ih => rw [List.foldl_cons, categoryStep_none, ih]

/-- C10: a row whose DESCRIPCIÓN is missing matches no category keyword and
keeps the default "Uncategorized"; the categorization step still succeeds
on such rows. -/
theorem missing_descripcion_uncategorized :
    ∀ (cats : List (String × List String)) (rows : List Txn),
      categorize_one cats none = "Uncategorized" ∧
      (∀ r ∈ categorize_transactions cats rows, r.descripcion = none →
        r.category = "Uncategorized") := by
  intro cats rows
  refine ⟨foldl_categoryStep_none cats _, ?_⟩
  intro r hr hd
  simp only [categorize_transactions, List.mem_map] at hr
  obtain ⟨r', _, rfl⟩ := hr
  simp only at hd ⊢
  rw [hd, categorize_one, foldl_categoryStep_none]

/-- C10 witness: a concrete row with a missing description comes out of
categorization as "Uncategorized". -/
theorem missing_descripcion_witness :
    (⟨"", none, "CREDIT", none, "Uncategorized"⟩ : Txn).category = "Uncategorized" :=
  (missing_descripcion_uncategorized [("Food", ["a"])]
      [⟨"", none, "CREDIT", none, "X"⟩]).2
    ⟨"", none, "CREDIT", none, "Uncategorized"⟩ (by decide) rfl

/-- C6: `clean_numeric_value` itself passes an already-numeric value
through unchanged (lines 88-90), but `load_transactions` first casts the
whole VALOR column to string (line 145), so the float `-45000.0` reaches
the parser as the string `"-45000.0"` and the lone `.` is treated as a
thousands separator: the stored row carries `-450000.0`, ten times the
input, instead of the unchanged `-45000.0` the claim (and the parser's own
numeric branch) promise. -/
theorem float_valor_corrupted_by_astype :
    clean_numeric_value (.floatV ⟨-45000, 0⟩) = some ⟨-45000, 0⟩ ∧
    Dec.val ⟨-45000, 0⟩ = -45000 ∧
    pyStr (.floatV ⟨-45000, 0⟩) = "-45000.0" ∧
    (load_transactions [] ["VALOR", "DESCRIPCIÓN"] [⟨.floatV ⟨-45000, 0⟩, some "x"⟩]).df =
      some [⟨"-45000.0", some ⟨-450000, 0⟩, "DEBIT", some "x", "Uncategorized"⟩] ∧
    Dec.val ⟨-450000, 0⟩ = -450000 := by
  refine ⟨by decide, by norm_num [Dec.val], by decide, by decide, by norm_num [Dec.val]⟩

/-- One category step either keeps the current assignment or overwrites it
with the category's own name, the latter only for an eligible (non-default,
non-empty) category whose cleaned keyword set contains the cleaned
description. -/
theorem categoryStep_cases (d : String) (acc : String) (p : String × List String) :
    categoryStep (some d) acc p = acc ∨
      (categoryStep (some d) acc p = p.1 ∧ p.1 ≠ "Uncategorized" ∧ p.2 ≠ [] ∧
        (p.2.map cleanStr).contains (cleanStr d) = true) := by
  unfold categoryStep
  split
  · exact Or.inl rfl
  · rename_i hskip
    push_neg at hskip
    split
    · rename_i hm
      exact Or.inr ⟨rfl, hskip.1, hskip.2, hm⟩
    · exact Or.inl rfl

/-- A step on a category that is skipped or whose keywords miss the
description keeps the assignment. -/
theorem categoryStep_no_match (d : String) (acc : String) (p : String × List String)
    (hp : p.1 = "Uncategorized" ∨ p.2 = [] ∨
      (p.2.map cleanStr).contains (cleanStr d) = false) :
    categoryStep (some d) acc p = acc := by
  unfold categoryStep
  split
  · rfl
  · rename_i hskip
    push_neg at hskip
    split
    · rename_i hm
      rcases hp with h | h | h
      · exact absurd h hskip.1
      · exact absurd h hskip.2
      · have hm2 : (p.2.map cleanStr).contains (cleanStr d) = true := hm
        rw [h] at hm2
        simp at hm2
    · rfl

/-- When no category of the table matches, the loop keeps its starting
assignment. -/
theorem foldl_categoryStep_no_match (d : String) (cats : List (String × List String))
    (a : String)
    (h : ∀ p ∈ cats, p.1 = "Uncategorized" ∨ p.2 = [] ∨
      (p.2.map cleanStr).contains (cleanStr d) = false) :
    cats.foldl (categoryStep (some d)) a = a := by
  induction cats generalizing a with
  | nil => rfl
  | cons p t ih =>
    rw [List.foldl_cons, categoryStep_no_match d a p (h p (List.mem_cons_self _ _))]
    exact ih a fun q hq => h q (List.mem_cons_of_mem _ hq)

/-- The loop's result is its starting assignment or the name of some
category of the table (an eligible one at that). -/
theorem foldl_categoryStep_result (d : String) (cats : List (String × List String))
    (a : String) :
    cats.foldl (categoryStep (some d)) a = a ∨
      ∃ p ∈ cats, cats.foldl (categoryStep (some d)) a = p.1 ∧ p.1 ≠ "Uncategorized" := by
  induction cats generalizing a with
  | nil => exact Or.inl rfl
  | cons p t ih =>
    rw [List.foldl_cons]
    rcases categoryStep_cases d a p with hs | ⟨hs, hne, _, _⟩
    · rw [hs]
      rcases ih a with h | ⟨q, hq, he, hn⟩
      · exact Or.inl h
      · exact Or.inr ⟨q, List.mem_cons_of_mem _ hq, he, hn⟩
    · rw [hs]
      rcases ih p.1 with h | ⟨q, hq, he, hn⟩
      · exact Or.inr ⟨p, List.mem_cons_self _ _, h, hne⟩
      · exact Or.inr ⟨q, List.mem_cons_of_mem _ hq, he, hn⟩

/-- An assignment other than "Uncategorized" is never reset to it. -/
theorem foldl_categoryStep_preserve_ne (d : String) (cats : List (String × List String))
    (a : String) (ha : a ≠ "Uncategorized") :
    cats.foldl (categoryStep (some d)) a ≠ "Uncategorized" := by
  induction cats generalizing a with
  | nil => exact ha
  | cons p t ih =>
    rw [List.foldl_cons]
    rcases categoryStep_cases d a p with hs | ⟨hs, hne, _, _⟩
    · rw [hs]; exact ih a ha
    · rw [hs]; exact ih p.1 hne

/-- If some eligible category matches the description, the loop does not
end on "Uncategorized". -/
theorem foldl_categoryStep_match_ne (d : String) (cats : List (String × List String))
    (a : String)
    (h : ∃ p ∈ cats, p.1 ≠ "Uncategorized" ∧ p.2 ≠ [] ∧
      (p.2.map cleanStr).contains (cleanStr d) = true) :
    cats.foldl (categoryStep (some d)) a ≠ "Uncategorized" := by
  induction cats generalizing a with
  | nil => obtain ⟨p, hp, _⟩ := h; exact absurd hp (List.not_mem_nil p)
  | cons q t ih =>
    rw [List.foldl_cons]
    obtain ⟨p, hp, hprops⟩ := h
    rcases List.mem_cons.mp hp with rfl | hpt
    · have hs : categoryStep (some d) a p = p.1 := by
        unfold categoryStep
        rw [if_neg (by push_neg; exact ⟨hprops.1, hprops.2.1⟩)]
        split
        · rfl
        · rename_i hm
          exact absurd hprops.2.2 hm
      rw [hs]
      exact foldl_categoryStep_preserve_ne d t p.1 hprops.1
    · exact ih (categoryStep (some d) a q) ⟨p, hpt, hprops⟩

/-- C4 (amended): categorization on a present description assigns by exact
equality of cleaned (lowercased, trimmed) strings — the result is
"Uncategorized" exactly when no eligible category's cleaned keyword set
contains the cleaned description; the result is always a category name of
the table or "Uncategorized"; it is nonempty whenever every category name
in the table is nonempty (a category named "" can be assigned, see the
counterexample). -/
theorem categorize_assignment_spec :
    ∀ (cats : List (String × List String)) (d : String),
      ((categorize_one cats (some d) = "Uncategorized") ↔
        ∀ p ∈ cats, p.1 = "Uncategorized" ∨ p.2 = [] ∨
          (p.2.map cleanStr).contains (cleanStr d) = false) ∧
      (categorize_one cats (some d) = "Uncategorized" ∨
        ∃ p ∈ cats, categorize_one cats (some d) = p.1) ∧
      ((∀ p ∈ cats, p.1 ≠ "") → categorize_one cats (some d) ≠ "") := by
  intro cats d
  refine ⟨⟨?_, ?_⟩, ?_, ?_⟩
  · intro hu
    by_contra hno
    push_neg at hno
    obtain ⟨p, hp, h1, h2, h3⟩ := hno
    have h3' : (p.2.map cleanStr).contains (cleanStr d) = true := by
      cases hc : (p.2.map cleanStr).contains (cleanStr d)
      · exact absurd hc h3
      · rfl
    exact foldl_categoryStep_match_ne d cats "Uncategorized" ⟨p, hp, h1, h2, h3'⟩ hu
  · intro h
    exact foldl_categoryStep_no_match d cats "Uncategorized" h
  · rcases foldl_categoryStep_result d cats "Uncategorized" with h | ⟨p, hp, he, _⟩
    · exact Or.inl h
    · exact Or.inr ⟨p, hp, he⟩
  · intro hne
    rcases foldl_categoryStep_result d cats "Uncategorized" with h | ⟨p, hp, he, _⟩
    · rw [categorize_one, h]
      decide
    · rw [categorize_one, he]
      exact hne p hp

/-- C4 counterexample: a category table with an empty-string category name
whose keyword matches makes the assigned category the empty string, so
"the assigned category is never empty" fails as universally stated. -/
theorem categorize_empty_name_counterexample :
    categorize_one [("", ["foo"])] (some "foo") = "" ∧
    (categorize_one [("", ["foo"])] (some "foo")).length = 0 := by
  decide

/-- C4 witness: a description matching no keyword is "Uncategorized". -/
theorem categorize_assignment_witness :
    categorize_one [("Food", ["coffee"])] (some "tea") = "Uncategorized" :=
  (categorize_assignment_spec [("Food", ["coffee"])] "tea").1.mpr (by decide)

/-- C8: categories are processed in table order and the last processed
category whose cleaned keyword set contains the cleaned description wins:
whatever matched earlier (for example the same keyword duplicated in an
earlier category), the assignment is the later category's name. -/
theorem categorize_last_write_wins :
    ∀ (pre post : List (String × List String)) (c : String) (kws : List String) (d : String),
      c ≠ "Uncategorized" → kws ≠ [] →
      (kws.map cleanStr).contains (cleanStr d) = true →
      (∀ p ∈ post, p.1 = "Uncategorized" ∨ p.2 = [] ∨
        (p.2.map cleanStr).contains (cleanStr d) = false) →
      categorize_one (pre ++ (c, kws) :: post) (some d) = c := by
  intro pre post c kws d hc hk hm hpost
  unfold categorize_one
  rw [List.foldl_append, List.foldl_cons]
  have hstep :
      categoryStep (some d) (pre.foldl (categoryStep (some d)) "Uncategorized") (c, kws) = c := by
    unfold categoryStep
    rw [if_neg (by push_neg; exact ⟨hc, hk⟩)]
    split
    · rfl
    · rename_i hmm
      exact absurd hm hmm
  rw [hstep]
  exact foldl_categoryStep_no_match d post c hpost

/-- C8 witness: the keyword "dup" appears in categories "A" then "B"; a
matching row is assigned "B". -/
theorem categorize_last_write_wins_witness :
    categorize_one [("A", ["dup"]), ("B", ["dup"])] (some "dup") = "B" :=
  categorize_last_write_wins [("A", ["dup"])] [] "B" ["dup"] "dup"
    (by decide) (by decide) (by decide) (by simp)

/-- The validation outcome when a required column is missing: an early
`False` with one error naming the first missing column in check order. -/
theorem validate_dataframe_missing (cols : List String)
    (hmiss : cols.contains "VALOR" = false ∨ cols.contains "DESCRIPCIÓN" = false) :
    validate_dataframe cols =
      (false, ["Missing required column: " ++
        (if cols.contains "VALOR" then "DESCRIPCIÓN" else "VALOR")]) := by
  cases hV : cols.contains "VALOR" with
  | false =>
    have hV2 : "VALOR" ∉ cols := by simpa using hV
    simp [validate_dataframe, required_columns, validateLoop, hV, hV2]
  | true =>
    have hD : cols.contains "DESCRIPCIÓN" = false := by
      rcases hmiss with h | h
      · rw [hV] at h
        exact absurd h (by simp)
      · exact h
    have hV2 : "VALOR" ∈ cols := by simpa using hV
    have hD2 : "DESCRIPCIÓN" ∉ cols := by simpa using hD
    simp [validate_dataframe, required_columns, validateLoop, hV, hD, hV2, hD2]

/-- C5 (amended): a table missing VALOR or DESCRIPCIÓN makes
`load_transactions` fail before any processing: the returned result is a
failure whose message is the fixed string naming no column, no data or
frames are produced, and one error diagnostic names the first missing
required column (VALOR is checked first). -/
theorem load_schema_failure_spec :
    ∀ (cats : List (String × List String)) (cols : List String) (rows : List RawRow),
      (cols.contains "VALOR" = false ∨ cols.contains "DESCRIPCIÓN" = false) →
      (load_transactions cats cols rows).success = false ∧
      (load_transactions cats cols rows).message =
        "Invalid file structure. Missing required columns." ∧
      (load_transactions cats cols rows).data = none ∧
      (load_transactions cats cols rows).df = none ∧
      (load_transactions cats cols rows).debitsDf = none ∧
      (load_transactions cats cols rows).creditsDf = none ∧
      (load_transactions cats cols rows).errors =
        ["Missing required column: " ++
          (if cols.contains "VALOR" then "DESCRIPCIÓN" else "VALOR")] := by
  intro cats cols rows hmiss
  have hv := validate_dataframe_missing cols hmiss
  simp [load_transactions, hv]

/-- C5 witness: with only a FECHA column, the load fails with the fixed
message and the diagnostic naming VALOR. -/
theorem load_schema_failure_witness :
    (load_transactions [] ["FECHA"] []).success = false ∧
    (load_transactions [] ["FECHA"] []).errors = ["Missing required column: VALOR"] := by
  have h := load_schema_failure_spec [] ["FECHA"] [] (Or.inl (by decide))
  refine ⟨h.1, ?_⟩
  rw [h.2.2.2.2.2.2]
  decide

/-- C5 counterexample: with both required columns missing, the returned
failure result's message names neither VALOR nor DESCRIPCIÓN (it is the
fixed string), and the only emitted diagnostic names VALOR alone — no
surfaced text names DESCRIPCIÓN, against "names the missing column(s)". -/
theorem load_schema_error_counterexample :
    (load_transactions [] [] []).success = false ∧
    (load_transactions [] [] []).message = "Invalid file structure. Missing required columns." ∧
    subIn "VALOR".data (load_transactions [] [] []).message.data = false ∧
    subIn "DESCRIPCIÓN".data (load_transactions [] [] []).message.data = false ∧
    (load_transactions [] [] []).errors = ["Missing required column: VALOR"] ∧
    ((load_transactions [] [] []).errors.all
      (fun e => !(subIn "DESCRIPCIÓN".data e.data))) = true := by
  decide

/-- The validation outcome when both required columns are present. -/
theorem validate_dataframe_ok (cols : List String)
    (hV : cols.contains "VALOR" = true) (hD : cols.contains "DESCRIPCIÓN" = true) :
    validate_dataframe cols = (true, []) := by
  have hV2 : "VALOR" ∈ cols := by simpa using hV
  have hD2 : "DESCRIPCIÓN" ∈ cols := by simpa using hD
  simp [validate_dataframe, required_columns, validateLoop, hV2, hD2]

/-- C7 (amended): with a valid schema the load succeeds whatever the VALOR
cells hold; every row is retained (one output row per input row, in
order), a row whose VALOR fails to parse gets a null amount and flow
CREDIT and lands in the credit subset, and the returned data carries the
total/debit/credit counts.  (The returned dict carries no list or count of
parse failures — see the counterexample theorem.) -/
theorem load_unparseable_row_retained :
    ∀ (cats : List (String × List String)) (cols : List String) (rows : List RawRow),
      cols.contains "VALOR" = true → cols.contains "DESCRIPCIÓN" = true →
      (load_transactions cats cols rows).success = true ∧
      (load_transactions cats cols rows).df = some (rows.map (normalize_row cats)) ∧
      (rows.map (normalize_row cats)).length = rows.length ∧
      (∀ r ∈ rows, clean_numeric_value (.strV (pyStr r.valor)) = none →
        (normalize_row cats r).amount = none ∧
        (normalize_row cats r).flow = "CREDIT" ∧
        normalize_row cats r ∈ ((load_transactions cats cols rows).creditsDf.getD [])) ∧
      (load_transactions cats cols rows).data =
        some (rows.length,
          ((rows.map (normalize_row cats)).filter (fun t => t.flow = "DEBIT")).length,
          ((rows.map (normalize_row cats)).filter (fun t => t.flow = "CREDIT")).length) := by
  intro cats cols rows hV hD
  have hv := validate_dataframe_ok cols hV hD
  refine ⟨by simp [load_transactions, hv], by simp [load_transactions, hv], by simp, ?_, ?_⟩
  · intro r hr hnone
    have hamt : (normalize_row cats r).amount = none := by
      simp [normalize_row, hnone]
    have hflow : (normalize_row cats r).flow = "CREDIT" := by
      simp [normalize_row, hnone, flowOf]
    refine ⟨hamt, hflow, ?_⟩
    have hc : (load_transactions cats cols rows).creditsDf =
        some ((rows.map (normalize_row cats)).filter (fun t => t.flow = "CREDIT")) := by
      simp [load_transactions, hv, process_transactions]
    rw [hc, Option.getD_some]
    exact List.mem_filter.mpr ⟨List.mem_map_of_mem _ hr, by simp [hflow]⟩
  · simp [load_transactions, hv, process_transactions]

/-- C7 witness: a row whose VALOR is "not a number" still loads
successfully and is classified CREDIT. -/
theorem load_unparseable_row_witness :
    (load_transactions [] ["VALOR", "DESCRIPCIÓN"] [⟨.strV "not a number", some "d"⟩]).success
      = true ∧
    (normalize_row [] ⟨.strV "not a number", some "d"⟩).flow = "CREDIT" := by
  have h := load_unparseable_row_retained [] ["VALOR", "DESCRIPCIÓN"]
    [⟨.strV "not a number", some "d"⟩] (by decide) (by decide)
  exact ⟨h.1, (h.2.2.2.1 ⟨.strV "not a number", some "d"⟩ (by simp) (by decide)).2.1⟩

/-- C7 counterexample: the dict returned to the caller (success, message,
data) is identical for an input whose single row fails to parse and one
whose single row parses, so it cannot contain any list or count of
parse-failure rows; the failure is only visible in the logged error
stream, not in the returned outcome. -/
theorem load_outcome_no_parse_failure_report :
    ((load_transactions [] ["VALOR", "DESCRIPCIÓN"]
        [⟨.strV "not a number", some "d"⟩]).df.getD []).map Txn.amount = [none] ∧
    ((load_transactions [] ["VALOR", "DESCRIPCIÓN"]
        [⟨.strV "0", some "d"⟩]).df.getD []).map Txn.amount = [some ⟨0, 0⟩] ∧
    (load_transactions [] ["VALOR", "DESCRIPCIÓN"] [⟨.strV "not a number", some "d"⟩]).success =
      (load_transactions [] ["VALOR", "DESCRIPCIÓN"] [⟨.strV "0", some "d"⟩]).success ∧
    (load_transactions [] ["VALOR", "DESCRIPCIÓN"] [⟨.strV "not a number", some "d"⟩]).message =
      (load_transactions [] ["VALOR", "DESCRIPCIÓN"] [⟨.strV "0", some "d"⟩]).message ∧
    (load_transactions [] ["VALOR", "DESCRIPCIÓN"] [⟨.strV "not a number", some "d"⟩]).data =
      (load_transactions [] ["VALOR", "DESCRIPCIÓN"] [⟨.strV "0", some "d"⟩]).data ∧
    (load_transactions [] ["VALOR", "DESCRIPCIÓN"] [⟨.strV "not a number", some "d"⟩]).errors =
      ["Error processing value: 'not a number'"] := by
  decide

/-- A digit character is at most '9'. -/
theorem digit_le_nine (c : Char) (h : c.isDigit = true) : c ≤ '9' := by
  unfold Char.isDigit at h
  have h2 := ((Bool.and_eq_true _ _).mp h).2
  exact Char.le_def.mpr (by exact_mod_cast of_decide_eq_true h2)

/-- Lowercasing does not move digit characters. -/
theorem lowerChar_digit (c : Char) (h : c.isDigit = true) : lowerChar c = c := by
  unfold lowerChar
  rw [if_neg]
  rintro ⟨hA, _⟩
  exact absurd (le_trans hA (digit_le_nine c h)) (by decide)

/-- A digit character differs from the pipeline's special characters and is
not whitespace. -/
theorem digit_char_facts (c : Char) (h : c.isDigit = true) :
    c ≠ '$' ∧ isWs c = false ∧ c ≠ ',' ∧ c ≠ '.' ∧ c ≠ '-' ∧ c ≠ '+' := by
  refine ⟨?_, ?_, ?_, ?_, ?_, ?_⟩ <;> first
    | (rintro rfl; simp [Char.isDigit] at h)
    | (unfold isWs
       rcases eq_or_ne c ' ' with rfl | h1
       · simp [Char.isDigit] at h
       · rcases eq_or_ne c '\t' with rfl | h2
         · simp [Char.isDigit] at h
         · rcases eq_or_ne c '\n' with rfl | h3
           · simp [Char.isDigit] at h
           · rcases eq_or_ne c '\r' with rfl | h4
             · simp [Char.isDigit] at h
             · simp [h1, h2, h3, h4])

/-- Elements of a list passing `List.all Char.isDigit` are digits. -/
theorem all_digit_mem {l : List Char} (h : l.all Char.isDigit = true) :
    ∀ c ∈ l, c.isDigit = true :=
  fun c hc => List.all_eq_true.mp h c hc

/-- dropWhile is the identity on a list with no leading satisfier. -/
theorem dropWhile_eq_self_of (l : List Char) (h : ∀ c ∈ l, isWs c = false) :
    l.dropWhile isWs = l := by
  cases l with
  | nil => rfl
  | cons c t => simp [List.dropWhile_cons, h c (List.mem_cons_self _ _)]

/-- Stripping is the identity on a list with no whitespace at all. -/
theorem pyStripChars_eq_self (l : List Char) (h : ∀ c ∈ l, isWs c = false) :
    pyStripChars l = l := by
  unfold pyStripChars
  rw [dropWhile_eq_self_of l h,
    dropWhile_eq_self_of l.reverse (fun c hc => h c (List.mem_reverse.mp hc)),
    List.reverse_reverse]

/-- Dollar removal is the identity on a list without dollars. -/
theorem removeDollars_eq_self (l : List Char) (h : ∀ c ∈ l, c ≠ '$') :
    removeDollars l = l := by
  unfold removeDollars
  exact List.filter_eq_self.mpr fun c hc => by simpa using h c hc

/-- Dot removal is the identity on a list without dots. -/
theorem filter_dot_eq_self (l : List Char) (h : ∀ c ∈ l, c ≠ '.') :
    l.filter (· != '.') = l :=
  List.filter_eq_self.mpr fun c hc => by simpa using h c hc

/-- Comma replacement is the identity on a list without commas. -/
theorem map_comma_eq_self (l : List Char) (h : ∀ c ∈ l, c ≠ ',') :
    l.map (fun ch => if ch = ',' then '.' else ch) = l := by
  induction l with
  | nil => rfl
  | cons c t ih =>
    rw [List.map_cons, if_neg (h c (List.mem_cons_self _ _)),
      ih fun x hx => h x (List.mem_cons_of_mem _ hx)]

/-- joinDots on two or more groups starts with the first group and a dot. -/
theorem joinDots_cons₂ (g h : List Char) (t : List (List Char)) :
    joinDots (g :: h :: t) = g ++ '.' :: joinDots (h :: t) := rfl

/-- Every character of a joined digit-group list is a digit or a dot. -/
theorem joinDots_mem (groups : List (List Char))
    (hg : ∀ g ∈ groups, ∀ c ∈ g, c.isDigit = true) :
    ∀ c ∈ joinDots groups, c.isDigit = true ∨ c = '.' := by
  induction groups with
  | nil => simp [joinDots]
  | cons g gs ih =>
    cases gs with
    | nil =>
      intro c hc
      exact Or.inl (hg g (List.mem_cons_self _ _) c (by simpa [joinDots] using hc))
    | cons h t =>
      intro c hc
      rw [joinDots_cons₂] at hc
      rcases List.mem_append.mp hc with hcg | hcd
      · exact Or.inl (hg g (List.mem_cons_self _ _) c hcg)
      · rcases List.mem_cons.mp hcd with rfl | hcj
        · exact Or.inr rfl
        · exact ih (fun x hx => hg x (List.mem_cons_of_mem _ hx)) c hcj

/-- Removing the dots from a joined digit-group list leaves the
concatenation of the groups. -/
theorem joinDots_filter (groups : List (List Char))
    (hg : ∀ g ∈ groups, ∀ c ∈ g, c.isDigit = true) :
    (joinDots groups).filter (· != '.') = groups.flatten := by
  induction groups with
  | nil => rfl
  | cons g gs ih =>
    cases gs with
    | nil =>
      show (joinDots [g]).filter (· != '.') = [g].flatten
      have : joinDots [g] = g := rfl
      rw [this]
      simp only [List.flatten_cons, List.flatten_nil, List.append_nil]
      exact filter_dot_eq_self g fun c hc =>
        (digit_char_facts c (hg g (List.mem_cons_self _ _) c hc)).2.2.2.1
    | cons h t =>
      rw [joinDots_cons₂, List.filter_append, List.filter_cons]
      have hgd : g.filter (· != '.') = g :=
        filter_dot_eq_self g fun c hc =>
          (digit_char_facts c (hg g (List.mem_cons_self _ _) c hc)).2.2.2.1
      rw [hgd, ih fun x hx => hg x (List.mem_cons_of_mem _ hx)]
      simp [List.flatten_cons]

/-- Every character of the concatenated groups is a digit. -/
theorem join_all_digits (groups : List (List Char))
    (hg : ∀ g ∈ groups, ∀ c ∈ g, c.isDigit = true) :
    groups.flatten.all Char.isDigit = true := by
  rw [List.all_eq_true]
  intro c hc
  obtain ⟨g, hgm, hcg⟩ := List.mem_flatten.mp hc
  exact hg g hgm c hcg

/-- splitIntFrac finds no dot in a dot-free list. -/
theorem splitIntFrac_no_dot (l : List Char) (h : ∀ c ∈ l, c ≠ '.') :
    splitIntFrac l = (l, none) := by
  induction l with
  | nil => rfl
  | cons c t ih =>
    rw [splitIntFrac, if_neg (h c (List.mem_cons_self _ _))]
    simp [ih fun x hx => h x (List.mem_cons_of_mem _ hx)]

/-- splitIntFrac splits at the first dot. -/
theorem splitIntFrac_append (a b : List Char) (h : ∀ c ∈ a, c ≠ '.') :
    splitIntFrac (a ++ '.' :: b) = (a, some b) := by
  induction a with
  | nil => simp [splitIntFrac]
  | cons c t ih =>
    rw [List.cons_append, splitIntFrac, if_neg (h c (List.mem_cons_self _ _))]
    simp [ih fun x hx => h x (List.mem_cons_of_mem _ hx)]

/-- Python `float()` on a bare nonempty digit string is its value. -/
theorem pyFloatCore_digits (l : List Char) (hne : l ≠ []) (hd : l.all Char.isDigit = true) :
    pyFloatCore l = some ⟨(digitsVal l : ℤ), 0⟩ := by
  unfold pyFloatCore
  rw [splitIntFrac_no_dot l fun c hc =>
    (digit_char_facts c (all_digit_mem hd c hc)).2.2.2.1]
  simp [hne, hd]

/-- Python `float()` on digits-dot-digits is the corresponding decimal. -/
theorem pyFloatCore_point (a b : List Char) (ha : a.all Char.isDigit = true)
    (hb : b.all Char.isDigit = true) (hne : a ≠ [] ∨ b ≠ []) :
    pyFloatCore (a ++ '.' :: b) = some ⟨(digitsVal (a ++ b) : ℤ), b.length⟩ := by
  unfold pyFloatCore
  rw [splitIntFrac_append a b fun c hc =>
    (digit_char_facts c (all_digit_mem ha c hc)).2.2.2.1]
  simp [ha, hb, hne]

/-- The sign branch of `pyFloat?`. -/
theorem pyFloat?_neg (l : List Char) :
    pyFloat? ('-' :: l) = (pyFloatCore l).map (fun d => ⟨-d.num, d.exp⟩) := by
  simp [pyFloat?]

/-- An unsigned body goes straight to `pyFloatCore`. -/
theorem pyFloat?_not_sign (c : Char) (l : List Char) (h1 : c ≠ '-') (h2 : c ≠ '+') :
    pyFloat? (c :: l) = pyFloatCore (c :: l) := by
  simp [pyFloat?, h1, h2]

/-- A list of digits, dots and signs never lowercases to "nan". -/
theorem map_lower_ne_nan (m : List Char)
    (h : ∀ c ∈ m, c.isDigit = true ∨ c = '.' ∨ c = '-' ∨ c = '+') :
    ((m.map lowerChar) == ['n', 'a', 'n']) = false := by
  apply beq_eq_false_iff_ne.mpr
  intro heq
  cases m with
  | nil => exact absurd heq (by decide)
  | cons c t =>
    rw [List.map_cons] at heq
    have hc : lowerChar c = 'n' := (List.cons.inj heq).1
    rcases h c (List.mem_cons_self _ _) with hd | rfl | rfl | rfl
    · rw [lowerChar_digit c hd] at hc
      rw [hc] at hd
      simp [Char.isDigit] at hd
    · exact absurd hc (by decide)
    · exact absurd hc (by decide)
    · exact absurd hc (by decide)

/-- A cleaned numeral never spells `nan`. -/
theorem isNanChars_false (l : List Char)
    (h : ∀ c ∈ l, c.isDigit = true ∨ c = '.' ∨ c = '-' ∨ c = '+') :
    isNanChars l = false := by
  unfold isNanChars
  cases l with
  | nil => decide
  | cons c t =>
    by_cases hs : c = '-' ∨ c = '+'
    · simp only [hs, if_true]
      exact map_lower_ne_nan t fun x hx => h x (List.mem_cons_of_mem _ hx)
    · simp only [hs, if_false]
      exact map_lower_ne_nan (c :: t) h

/-- Shifting the accumulator of the digit fold multiplies by the length's
power of ten. -/
theorem digitsVal_shift : ∀ (b : List Char) (n : ℕ),
    b.foldl (fun a c => 10 * a + (c.toNat - 48)) n =
      n * 10 ^ b.length + b.foldl (fun a c => 10 * a + (c.toNat - 48)) 0 := by
  intro b
  induction b with
  | nil => intro n; simp
  | cons c t ih =>
    intro n
    rw [List.foldl_cons, List.foldl_cons, ih (10 * n + (c.toNat - 48)),
      ih (10 * 0 + (c.toNat - 48)), List.length_cons, pow_succ]
    ring

/-- The value of concatenated digit strings. -/
theorem digitsVal_append (a b : List Char) :
    digitsVal (a ++ b) = digitsVal a * 10 ^ b.length + digitsVal b := by
  unfold digitsVal
  rw [List.foldl_append, digitsVal_shift]

/-- A zero-exponent decimal is its mantissa. -/
theorem Dec.val_exp0 (n : ℤ) : (⟨n, 0⟩ : Dec).val = (n : ℚ) := by
  simp [Dec.val]

/-- The cleaned characters of a string with no dollars and no whitespace
are just its separator-disambiguated characters, and the parse proceeds on
them. -/
theorem clean_str_chars (l : List Char)
    (hnd : ∀ c ∈ l, c ≠ '$') (hnw : ∀ c ∈ l, isWs c = false) :
    clean_numeric_value (.strV ⟨l⟩) =
      (if isNanChars (sepClean l) = true then none else pyFloat? (sepClean l)) := by
  have hcc : cleanedChars ⟨l⟩ = sepClean l := by
    unfold cleanedChars
    rw [show (String.mk l).data = l from rfl,
      removeDollars_eq_self l hnd, pyStripChars_eq_self l hnw]
  by_cases hn : isNanChars (sepClean l) = true
  · simp [clean_numeric_value, clean_numeric_value_body, hcc, hn]
  · cases hp : pyFloat? (sepClean l) with
    | none => simp [clean_numeric_value, clean_numeric_value_body, hcc, hn, hp]
    | some d => simp [clean_numeric_value, clean_numeric_value_body, hcc, hn, hp]

/-- Python `float()` on an optionally negated digit string. -/
theorem pyFloat?_signed_digits (neg : Bool) (l : List Char) (hne : l ≠ [])
    (hd : l.all Char.isDigit = true) :
    pyFloat? ((if neg then ['-'] else []) ++ l) =
      some ⟨(if neg then -1 else 1) * (digitsVal l : ℤ), 0⟩ := by
  cases neg with
  | true =>
    rw [if_pos rfl, if_pos rfl, List.singleton_append, pyFloat?_neg,
      pyFloatCore_digits l hne hd]
    simp
  | false =>
    rw [if_neg (by simp), if_neg (by simp), List.nil_append]
    cases l with
    | nil => exact absurd rfl hne
    | cons c t =>
      have hc := all_digit_mem hd c (List.mem_cons_self _ _)
      rw [pyFloat?_not_sign c t (digit_char_facts c hc).2.2.2.2.1
        (digit_char_facts c hc).2.2.2.2.2, pyFloatCore_digits _ hne hd]
      simp

/-- Python `float()` on an optionally negated digits-dot-digits string. -/
theorem pyFloat?_signed_point (neg : Bool) (a frac : List Char)
    (ha : a.all Char.isDigit = true) (hf : frac.all Char.isDigit = true)
    (hne : a ≠ [] ∨ frac ≠ []) :
    pyFloat? ((if neg then ['-'] else []) ++ (a ++ '.' :: frac)) =
      some ⟨(if neg then -1 else 1) * (digitsVal (a ++ frac) : ℤ), frac.length⟩ := by
  cases neg with
  | true =>
    rw [if_pos rfl, if_pos rfl, List.singleton_append, pyFloat?_neg,
      pyFloatCore_point a frac ha hf hne]
    simp
  | false =>
    rw [if_neg (by simp), if_neg (by simp), List.nil_append]
    cases a with
    | nil =>
      rw [List.nil_append, pyFloat?_not_sign '.' frac (by decide) (by decide)]
      have := pyFloatCore_point [] frac ha hf hne
      rw [List.nil_append] at this
      rw [this]
      simp
    | cons c t =>
      have hc := all_digit_mem ha c (List.mem_cons_self _ _)
      rw [List.cons_append, pyFloat?_not_sign c (t ++ '.' :: frac)
        (digit_char_facts c hc).2.2.2.2.1 (digit_char_facts c hc).2.2.2.2.2,
        ← List.cons_append, pyFloatCore_point (c :: t) frac ha hf hne]
      simp

/-- Characters of the optional sign prefix. -/
theorem sign_mem (neg : Bool) (c : Char) (hc : c ∈ (if neg then ['-'] else [])) :
    c = '-' := by
  cases neg <;> simp_all

/-- The sign prefix survives dot removal. -/
theorem sign_filter_dot (neg : Bool) :
    (if neg then ['-'] else []).filter (· != '.') = (if neg then ['-'] else []) := by
  cases neg <;> rfl

/-- The sign prefix survives comma replacement. -/
theorem sign_map_comma (neg : Bool) :
    (if neg then ['-'] else []).map (fun ch => if ch = ',' then '.' else ch) =
      (if neg then ['-'] else []) := by
  cases neg <;> rfl

/-- C1 helper, dot-only convention: an optionally negated numeral written
with dot-separated digit groups parses to the integer given by all its
digits. -/
theorem clean_conv_dot (neg : Bool) (groups : List (List Char))
    (hg : ∀ g ∈ groups, ∀ c ∈ g, c.isDigit = true)
    (hlen : 2 ≤ groups.length) (hj : groups.flatten ≠ []) :
    clean_numeric_value (.strV ⟨(if neg then ['-'] else []) ++ joinDots groups⟩) =
      some ⟨(if neg then -1 else 1) * (digitsVal groups.flatten : ℤ), 0⟩ := by
  have hmem : ∀ c ∈ (if neg then ['-'] else []) ++ joinDots groups,
      c.isDigit = true ∨ c = '.' ∨ c = '-' ∨ c = '+' := by
    intro c hc
    rcases List.mem_append.mp hc with hsc | hjd
    · exact Or.inr (Or.inr (Or.inl (sign_mem neg c hsc)))
    · rcases joinDots_mem groups hg c hjd with hd | rfl
      · exact Or.inl hd
      · exact Or.inr (Or.inl rfl)
  have hnd : ∀ c ∈ (if neg then ['-'] else []) ++ joinDots groups, c ≠ '$' := by
    intro c hc
    rcases hmem c hc with hd | rfl | rfl | rfl
    · exact (digit_char_facts c hd).1
    · decide
    · decide
    · decide
  have hnw : ∀ c ∈ (if neg then ['-'] else []) ++ joinDots groups, isWs c = false := by
    intro c hc
    rcases hmem c hc with hd | rfl | rfl | rfl
    · exact (digit_char_facts c hd).2.1
    · decide
    · decide
    · decide
  rw [clean_str_chars _ hnd hnw]
  obtain ⟨g, h, t, rfl⟩ : ∃ g h t, groups = g :: h :: t := by
    rcases groups with _ | ⟨g, _ | ⟨h, t⟩⟩
    · simp at hlen
    · simp at hlen
    · exact ⟨g, h, t, rfl⟩
  have hdot : ((if neg then ['-'] else []) ++ joinDots (g :: h :: t)).contains '.' = true := by
    have : '.' ∈ (if neg then ['-'] else []) ++ joinDots (g :: h :: t) :=
      List.mem_append.mpr (Or.inr (by
        rw [joinDots_cons₂]
        exact List.mem_append.mpr (Or.inr (List.mem_cons_self _ _))))
    simpa using this
  have hcomma : ((if neg then ['-'] else []) ++ joinDots (g :: h :: t)).contains ',' = false := by
    have : ¬ (',' ∈ (if neg then ['-'] else []) ++ joinDots (g :: h :: t)) := by
      intro hm
      rcases hmem ',' hm with hd | he | he | he
      · simp [Char.isDigit] at hd
      · exact absurd he (by decide)
      · exact absurd he (by decide)
      · exact absurd he (by decide)
    simpa using this
  have hsep : sepClean ((if neg then ['-'] else []) ++ joinDots (g :: h :: t)) =
      (if neg then ['-'] else []) ++ (g :: h :: t).flatten := by
    unfold sepClean
    rw [hdot, hcomma]
    simp only [Bool.not_false, Bool.and_true, if_true]
    rw [List.filter_append, sign_filter_dot, joinDots_filter _ hg]
  rw [hsep]
  have hnan : isNanChars ((if neg then ['-'] else []) ++ (g :: h :: t).flatten) = false := by
    apply isNanChars_false
    intro c hc
    rcases List.mem_append.mp hc with hsc | hfl
    · exact Or.inr (Or.inr (Or.inl (sign_mem neg c hsc)))
    · exact Or.inl (all_digit_mem (join_all_digits _ hg) c hfl)
  rw [hnan]
  simp only [Bool.false_eq_true, if_false]
  exact pyFloat?_signed_digits neg _ hj (join_all_digits _ hg)

/-- C1 helper, both-separators convention: dot-separated digit groups, a
comma, then fractional digits parse to the decimal whose mantissa is all
digits and whose exponent is the fractional length. -/
theorem clean_conv_both (neg : Bool) (groups : List (List Char)) (frac : List Char)
    (hg : ∀ g ∈ groups, ∀ c ∈ g, c.isDigit = true)
    (hf : frac.all Char.isDigit = true)
    (hlen : 2 ≤ groups.length) (hfne : frac ≠ []) :
    clean_numeric_value
        (.strV ⟨(if neg then ['-'] else []) ++ joinDots groups ++ ',' :: frac⟩) =
      some ⟨(if neg then -1 else 1) * (digitsVal (groups.flatten ++ frac) : ℤ),
        frac.length⟩ := by
  have hmem : ∀ c ∈ (if neg then ['-'] else []) ++ joinDots groups ++ ',' :: frac,
      c.isDigit = true ∨ c = '.' ∨ c = '-' ∨ c = '+' ∨ c = ',' := by
    intro c hc
    rcases List.mem_append.mp hc with hl | hr
    · rcases List.mem_append.mp hl with hsc | hjd
      · exact Or.inr (Or.inr (Or.inl (sign_mem neg c hsc)))
      · rcases joinDots_mem groups hg c hjd with hd | rfl
        · exact Or.inl hd
        · exact Or.inr (Or.inl rfl)
    · rcases List.mem_cons.mp hr with rfl | hfr
      · exact Or.inr (Or.inr (Or.inr (Or.inr rfl)))
      · exact Or.inl (all_digit_mem hf c hfr)
  have hnd : ∀ c ∈ (if neg then ['-'] else []) ++ joinDots groups ++ ',' :: frac,
      c ≠ '$' := by
    intro c hc
    rcases hmem c hc with hd | rfl | rfl | rfl | rfl
    · exact (digit_char_facts c hd).1
    all_goals decide
  have hnw : ∀ c ∈ (if neg then ['-'] else []) ++ joinDots groups ++ ',' :: frac,
      isWs c = false := by
    intro c hc
    rcases hmem c hc with hd | rfl | rfl | rfl | rfl
    · exact (digit_char_facts c hd).2.1
    all_goals decide
  rw [clean_str_chars _ hnd hnw]
  obtain ⟨g, h, t, rfl⟩ : ∃ g h t, groups = g :: h :: t := by
    rcases groups with _ | ⟨g, _ | ⟨h, t⟩⟩
    · simp at hlen
    · simp at hlen
    · exact ⟨g, h, t, rfl⟩
  have hdot : ((if neg then ['-'] else []) ++ joinDots (g :: h :: t) ++ ',' :: frac).contains '.'
      = true := by
    have : '.' ∈ (if neg then ['-'] else []) ++ joinDots (g :: h :: t) ++ ',' :: frac :=
      List.mem_append.mpr (Or.inl (List.mem_append.mpr (Or.inr (by
        rw [joinDots_cons₂]
        exact List.mem_append.mpr (Or.inr (List.mem_cons_self _ _))))))
    simpa using this
  have hcomma : ((if neg then ['-'] else []) ++ joinDots (g :: h :: t) ++ ',' :: frac).contains ','
      = true := by
    have : ',' ∈ (if neg then ['-'] else []) ++ joinDots (g :: h :: t) ++ ',' :: frac :=
      List.mem_append.mpr (Or.inr (List.mem_cons_self _ _))
    set_option linter.unnecessarySimpa false in
    simpa using this
  have hfd : frac.filter (· != '.') = frac :=
    filter_dot_eq_self frac fun c hc =>
      (digit_char_facts c (all_digit_mem hf c hc)).2.2.2.1
  have hflm : (g :: h :: t).flatten.map (fun ch => if ch = ',' then '.' else ch) =
      (g :: h :: t).flatten :=
    map_comma_eq_self _ fun c hc =>
      (digit_char_facts c (all_digit_mem (join_all_digits _ hg) c hc)).2.2.1
  have hfm : frac.map (fun ch => if ch = ',' then '.' else ch) = frac :=
    map_comma_eq_self frac fun c hc =>
      (digit_char_facts c (all_digit_mem hf c hc)).2.2.1
  have hsep : sepClean ((if neg then ['-'] else []) ++ joinDots (g :: h :: t) ++ ',' :: frac) =
      (if neg then ['-'] else []) ++ ((g :: h :: t).flatten ++ '.' :: frac) := by
    unfold sepClean
    rw [hdot, hcomma]
    simp only [Bool.not_true, Bool.and_false, Bool.and_true, Bool.false_eq_true, if_false,
      if_true]
    rw [List.filter_append, List.filter_append, sign_filter_dot, joinDots_filter _ hg,
      List.filter_cons]
    simp only [show ((',' : Char) != '.') = true by decide, if_true]
    rw [hfd, List.map_append, List.map_append, sign_map_comma, hflm, List.map_cons,
      if_pos rfl, hfm, List.append_assoc]
  rw [hsep]
  have hnan : isNanChars ((if neg then ['-'] else []) ++ ((g :: h :: t).flatten ++ '.' :: frac))
      = false := by
    apply isNanChars_false
    intro c hc
    rcases List.mem_append.mp hc with hsc | hr
    · exact Or.inr (Or.inr (Or.inl (sign_mem neg c hsc)))
    · rcases List.mem_append.mp hr with hfl | hfr
      · exact Or.inl (all_digit_mem (join_all_digits _ hg) c hfl)
      · rcases List.mem_cons.mp hfr with rfl | hfr2
        · exact Or.inr (Or.inl rfl)
        · exact Or.inl (all_digit_mem hf c hfr2)
  rw [hnan]
  simp only [Bool.false_eq_true, if_false]
  exact pyFloat?_signed_point neg _ frac (join_all_digits _ hg) hf (Or.inr hfne)

/-- C1 helper, comma-only convention: digits, a comma, then fractional
digits parse with the comma as decimal separator. -/
theorem clean_conv_comma (neg : Bool) (a frac : List Char)
    (ha : a.all Char.isDigit = true) (hf : frac.all Char.isDigit = true)
    (hane : a ≠ []) :
    clean_numeric_value (.strV ⟨(if neg then ['-'] else []) ++ a ++ ',' :: frac⟩) =
      some ⟨(if neg then -1 else 1) * (digitsVal (a ++ frac) : ℤ), frac.length⟩ := by
  have hmem : ∀ c ∈ (if neg then ['-'] else []) ++ a ++ ',' :: frac,
      c.isDigit = true ∨ c = '-' ∨ c = ',' := by
    intro c hc
    rcases List.mem_append.mp hc with hl | hr
    · rcases List.mem_append.mp hl with hsc | hda
      · exact Or.inr (Or.inl (sign_mem neg c hsc))
      · exact Or.inl (all_digit_mem ha c hda)
    · rcases List.mem_cons.mp hr with rfl | hfr
      · exact Or.inr (Or.inr rfl)
      · exact Or.inl (all_digit_mem hf c hfr)
  have hnd : ∀ c ∈ (if neg then ['-'] else []) ++ a ++ ',' :: frac, c ≠ '$' := by
    intro c hc
    rcases hmem c hc with hd | rfl | rfl
    · exact (digit_char_facts c hd).1
    all_goals decide
  have hnw : ∀ c ∈ (if neg then ['-'] else []) ++ a ++ ',' :: frac, isWs c = false := by
    intro c hc
    rcases hmem c hc with hd | rfl | rfl
    · exact (digit_char_facts c hd).2.1
    all_goals decide
  rw [clean_str_chars _ hnd hnw]
  have hdot : ((if neg then ['-'] else []) ++ a ++ ',' :: frac).contains '.' = false := by
    have : ¬ ('.' ∈ (if neg then ['-'] else []) ++ a ++ ',' :: frac) := by
      intro hm
      rcases hmem '.' hm with hd | he | he
      · simp [Char.isDigit] at hd
      · exact absurd he (by decide)
      · exact absurd he (by decide)
    simpa using this
  have hcomma : ((if neg then ['-'] else []) ++ a ++ ',' :: frac).contains ',' = true := by
    have : ',' ∈ (if neg then ['-'] else []) ++ a ++ ',' :: frac :=
      List.mem_append.mpr (Or.inr (List.mem_cons_self _ _))
    set_option linter.unnecessarySimpa false in
    simpa using this
  have ham : a.map (fun ch => if ch = ',' then '.' else ch) = a :=
    map_comma_eq_self a fun c hc =>
      (digit_char_facts c (all_digit_mem ha c hc)).2.2.1
  have hfm : frac.map (fun ch => if ch = ',' then '.' else ch) = frac :=
    map_comma_eq_self frac fun c hc =>
      (digit_char_facts c (all_digit_mem hf c hc)).2.2.1
  have hsep : sepClean ((if neg then ['-'] else []) ++ a ++ ',' :: frac) =
      (if neg then ['-'] else []) ++ (a ++ '.' :: frac) := by
    unfold sepClean
    rw [hdot, hcomma]
    simp only [Bool.false_and, Bool.false_eq_true, if_false, if_true]
    rw [List.map_append, List.map_append, sign_map_comma, ham, List.map_cons,
      if_pos rfl, hfm, List.append_assoc]
  rw [hsep]
  have hnan : isNanChars ((if neg then ['-'] else []) ++ (a ++ '.' :: frac)) = false := by
    apply isNanChars_false
    intro c hc
    rcases List.mem_append.mp hc with hsc | hr
    · exact Or.inr (Or.inr (Or.inl (sign_mem neg c hsc)))
    · rcases List.mem_append.mp hr with hda | hfr
      · exact Or.inl (all_digit_mem ha c hda)
      · rcases List.mem_cons.mp hfr with rfl | hfr2
        · exact Or.inr (Or.inl rfl)
        · exact Or.inl (all_digit_mem hf c hfr2)
  rw [hnan]
  simp only [Bool.false_eq_true, if_false]
  exact pyFloat?_signed_point neg a frac ha hf (Or.inl hane)

/-- Stripping a leading dollar-and-space: `replace('$', '')` removes the
dollar and `strip()` removes the then-leading space, so the parse result
is that of the bare numeral. -/
theorem clean_dollar_strip (s : String) :
    clean_numeric_value (.strV ("$ " ++ s)) = clean_numeric_value (.strV s) := by
  have hdata : ("$ " ++ s).data = '$' :: ' ' :: s.data := by
    obtain ⟨l⟩ := s
    rfl
  have hcc : cleanedChars ("$ " ++ s) = cleanedChars s := by
    unfold cleanedChars removeDollars
    rw [hdata]
    simp only [List.filter_cons, show (('$' : Char) != '$') = false from rfl,
      show ((' ' : Char) != '$') = true from rfl, Bool.false_eq_true, if_false, if_true]
    unfold pyStripChars
    rw [List.dropWhile_cons]
    simp only [show isWs ' ' = true from rfl, if_true]
  simp only [clean_numeric_value, clean_numeric_value_body, hcc]

/-- Value of an optionally negated integer mantissa. -/
theorem Dec.val_signed_int (neg : Bool) (x : List Char) :
    (⟨(if neg then (-1 : ℤ) else 1) * (digitsVal x : ℤ), 0⟩ : Dec).val =
      (if neg then (-1 : ℚ) else 1) * (digitsVal x : ℚ) := by
  rw [Dec.val_exp0]
  cases neg <;> push_cast <;> ring

/-- Value of an optionally negated decimal built from integer digits and
fractional digits. -/
theorem Dec.val_signed_frac (neg : Bool) (x f : List Char) :
    (⟨(if neg then (-1 : ℤ) else 1) * (digitsVal (x ++ f) : ℤ), f.length⟩ : Dec).val =
      (if neg then (-1 : ℚ) else 1) *
        ((digitsVal x : ℚ) + (digitsVal f : ℚ) / 10 ^ f.length) := by
  unfold Dec.val
  rw [digitsVal_append]
  cases neg <;> simp only [if_true, if_false] <;> push_cast <;> field_simp

/-- C1: for valid numeric strings in the three separator conventions the
parser returns the expected decimal.  After removing `$` and surrounding
whitespace: dot-separated digit groups (no comma) lose every dot and parse
as the integer of all their digits; digit groups with dots and a comma
lose the dots and read the comma as the decimal point; digits with only a
comma read it as the decimal point.  An optional leading minus negates,
and a leading "$ " is stripped.  The `Dec.val` conjuncts state the
resulting rational values ("300.000" gives 300000, "1.234,56" gives
1234.56, "$ -45.000,00" gives -45000.00, "1000,50" gives 1000.50 — see the
witness). -/
theorem clean_numeric_value_conventions :
    ∀ (neg : Bool) (groups : List (List Char)) (frac : List Char),
      (∀ g ∈ groups, g.all Char.isDigit = true) → frac.all Char.isDigit = true →
      (∀ s : String,
        clean_numeric_value (.strV ("$ " ++ s)) = clean_numeric_value (.strV s)) ∧
      (2 ≤ groups.length → groups.flatten ≠ [] →
        clean_numeric_value (.strV ⟨(if neg then ['-'] else []) ++ joinDots groups⟩) =
          some ⟨(if neg then (-1 : ℤ) else 1) * (digitsVal groups.flatten : ℤ), 0⟩ ∧
        (⟨(if neg then (-1 : ℤ) else 1) * (digitsVal groups.flatten : ℤ), 0⟩ : Dec).val =
          (if neg then (-1 : ℚ) else 1) * (digitsVal groups.flatten : ℚ)) ∧
      (2 ≤ groups.length → frac ≠ [] →
        clean_numeric_value
            (.strV ⟨(if neg then ['-'] else []) ++ joinDots groups ++ ',' :: frac⟩) =
          some ⟨(if neg then (-1 : ℤ) else 1) * (digitsVal (groups.flatten ++ frac) : ℤ),
            frac.length⟩ ∧
        (⟨(if neg then (-1 : ℤ) else 1) * (digitsVal (groups.flatten ++ frac) : ℤ),
            frac.length⟩ : Dec).val =
          (if neg then (-1 : ℚ) else 1) *
            ((digitsVal groups.flatten : ℚ) + (digitsVal frac : ℚ) / 10 ^ frac.length)) ∧
      (∀ a : List Char, a.all Char.isDigit = true → a ≠ [] →
        clean_numeric_value (.strV ⟨(if neg then ['-'] else []) ++ a ++ ',' :: frac⟩) =
          some ⟨(if neg then (-1 : ℤ) else 1) * (digitsVal (a ++ frac) : ℤ), frac.length⟩ ∧
        (⟨(if neg then (-1 : ℤ) else 1) * (digitsVal (a ++ frac) : ℤ),
            frac.length⟩ : Dec).val =
          (if neg then (-1 : ℚ) else 1) *
            ((digitsVal a : ℚ) + (digitsVal frac : ℚ) / 10 ^ frac.length)) := by
  intro neg groups frac hg hf
  have hg2 : ∀ g ∈ groups, ∀ c ∈ g, c.isDigit = true :=
    fun g hgm => all_digit_mem (hg g hgm)
  refine ⟨clean_dollar_strip, ?_, ?_, ?_⟩
  · intro hlen hj
    exact ⟨clean_conv_dot neg groups hg2 hlen hj, Dec.val_signed_int neg _⟩
  · intro hlen hfne
    exact ⟨clean_conv_both neg groups frac hg2 hf hlen hfne, Dec.val_signed_frac neg _ _⟩
  · intro a ha hane
    exact ⟨clean_conv_comma neg a frac ha hf hane, Dec.val_signed_frac neg a frac⟩

/-- C1 witness: the four spec examples, through the general theorem. -/
theorem clean_numeric_value_conventions_witness :
    clean_numeric_value (.strV "300.000") = some ⟨300000, 0⟩ ∧
    clean_numeric_value (.strV "1.234,56") = some ⟨123456, 2⟩ ∧
    clean_numeric_value (.strV "$ -45.000,00") = some ⟨-4500000, 2⟩ ∧
    clean_numeric_value (.strV "1000,50") = some ⟨100050, 2⟩ := by
  refine ⟨?_, ?_, ?_, ?_⟩
  · have h := ((clean_numeric_value_conventions false [['3', '0', '0'], ['0', '0', '0']] []
      (by decide) (by decide)).2.1 (by decide) (by decide)).1
    exact h.trans (by decide)
  · have h := ((clean_numeric_value_conventions false [['1'], ['2', '3', '4']] ['5', '6']
      (by decide) (by decide)).2.2.1 (by decide) (by decide)).1
    exact h.trans (by decide)
  · have hd := clean_numeric_value_conventions true [['4', '5'], ['0', '0', '0']] ['0', '0']
      (by decide) (by decide)
    have h1 := hd.1 "-45.000,00"
    have h2 := (hd.2.2.1 (by decide) (by decide)).1
    exact h1.trans (h2.trans (by decide))
  · have h := ((clean_numeric_value_conventions false [] ['5', '0']
      (by decide) (by decide)).2.2.2 ['1', '0', '0', '0'] (by decide) (by decide)).1
    exact h.trans (by decide)
